import Mathlib

/-!
Verification of the GitHub search widget
(src/src/components/tutorials/github/index.js).

The widget is a kea logic with four reducers (username, repositories,
isLoading, error), a selector computing a copy of the repository list
sorted by descending star count, and a listener on setUsername that
debounces 300 ms, fetches the repository list, and dispatches
setRepositories or setFetchError.

The listener is embedded as a small-step event semantics: each
setUsername dispatch creates a pending listener run tagged with a
generation number (the kea breakpoint machinery compares against the
latest dispatch; a breakpoint call throws when the tagged generation is
no longer the latest).  Suspension points of the listener body
(the 300 ms debounce, the fetch, the response.json() promise) become
environment-chosen events.
-/

namespace GithubWidget

/-- A repository record as used by the widget
(fields read by the component: id, full_name, html_url,
stargazers_count, forks). -/
structure Repo where
  id : Nat
  full_name : String
  html_url : String
  stargazers_count : Nat
  forks : Nat
deriving DecidableEq

/-- The store held by the four reducers of the logic. -/
structure State where
  username : String
  repositories : List Repo
  isLoading : Bool
  error : Option String
deriving DecidableEq

/-- The three actions of the logic.  The setFetchError payload is an
Option because the source dispatches json.message, which is undefined
when the parsed body is an array. -/
inductive Action where
  | setUsername (username : String)
  | setRepositories (repositories : List Repo)
  | setFetchError (error : Option String)
deriving DecidableEq

/-- Combined effect of the four reducers on one dispatched action:
  username: setUsername stores the payload;
  repositories: setUsername clears to [], setRepositories stores the payload;
  isLoading: setUsername gives true, the other two give false;
  error: setUsername clears to null, setFetchError stores the payload. -/
def reduce (state : State) : Action → State
  | .setUsername u =>
      { state with username := u, repositories := [], isLoading := true, error := none }
  | .setRepositories rs =>
      { state with repositories := rs, isLoading := false }
  | .setFetchError e =>
      { state with error := e, isLoading := false }

/-- Reducer defaults: username 'keajs', repositories [], isLoading false,
error null. -/
def initialState : State :=
  { username := "keajs", repositories := [], isLoading := false, error := none }

/-- Comparator of the sortedRepositories selector.  The source compares
with (a, b) => b.stargazers_count - a.stargazers_count; the comparator
result is nonpositive exactly when b.stargazers_count ≤ a.stargazers_count,
which is the ordering a stable comparator sort keeps. -/
def repoLe (a b : Repo) : Bool :=
  decide (b.stargazers_count ≤ a.stargazers_count)

/-- The sortedRepositories selector as a pure function of the stored
list: Array.prototype.sort with a comparator is a stable sort, applied
to the spread copy of repositories. -/
def sortedRepositories (repositories : List Repo) : List Repo :=
  List.mergeSort repositories repoLe

/-- Parsed JSON bodies the widget distinguishes: an array of repository
objects, or an object carrying a message string. -/
inductive JsonValue where
  | arr (repos : List Repo)
  | obj (message : String)
deriving DecidableEq

/-- A response body: either valid JSON, or a body on which
response.json() rejects. -/
inductive Body where
  | valid (v : JsonValue)
  | invalid
deriving DecidableEq

/-- The value setRepositories receives on status 200.  The source passes
the parsed value through unchanged; the embedding types the store field
as a repository list, so an object body (which the GitHub endpoint never
sends on 200, and on which no claim is evaluated) is mapped to []. -/
def jsonRepos : JsonValue → List Repo
  | .arr repos => repos
  | .obj _ => []

/-- json.message: the message field of an object body; undefined (none)
on an array body. -/
def jsonMessage : JsonValue → Option String
  | .arr _ => none
  | .obj m => some m

/-- Outcome of the awaited fetch: a transport failure (the promise
rejects, caught by the try/catch around fetch) or a response with a
status and a body. -/
inductive FetchResult where
  | transportError (message : String)
  | response (status : Nat) (body : Body)
deriving DecidableEq

/-- Where a suspended listener run stands: before the 300 ms debounce
breakpoint resolves, while the fetch is awaited, or while
response.json() is awaited (carrying the received status and body). -/
inductive Stage where
  | debouncing
  | fetching
  | awaitingJson (status : Nat) (body : Body)
deriving DecidableEq

/-- One suspended listener run: the generation of the dispatch that
started it (kea breakpoints throw when it is no longer the latest), the
captured username payload, and the suspension point reached. -/
structure Pending where
  gen : Nat
  username : String
  stage : Stage
deriving DecidableEq

/-- The whole widget: the reducer store, the dispatch generation
counter, the suspended listener runs, the URLs of issued network
requests, and a count of exceptions thrown past the listener. -/
structure Sys where
  store : State
  counter : Nat
  pending : List Pending
  requests : List String
  uncaught : Nat
deriving DecidableEq

def API_URL : String := "https://api.github.com"

/-- The request URL built by the listener. -/
def reposUrl (username : String) : String :=
  API_URL ++ "/users/" ++ username ++ "/repos?per_page=250"

/-- Events chosen by the environment: a setUsername dispatch, the 300 ms
debounce timer of pending run i firing, the fetch of pending run i
settling, the response.json() promise of pending run i settling. -/
inductive Event where
  | dispatch (username : String)
  | elapse (i : Nat)
  | fetched (i : Nat) (r : FetchResult)
  | parsed (i : Nat)
deriving DecidableEq

/-- Dispatching setUsername: the reducers run synchronously, the
generation counter advances, and a new listener run is suspended at the
debounce breakpoint.  No network activity happens here. -/
def stepDispatch (s : Sys) (u : String) : Sys :=
  { s with
    store := reduce s.store (.setUsername u)
    counter := s.counter + 1
    pending := s.pending ++ [⟨s.counter + 1, u, .debouncing⟩] }

/-- The debounce timer of run i fires: await breakpoint(300) throws when
a newer dispatch superseded the run (the run ends with no effect);
otherwise the listener builds the URL, issues the fetch, and suspends on
it. -/
def stepElapse (s : Sys) (i : Nat) : Sys :=
  match s.pending[i]? with
  | none => s
  | some p =>
    match p.stage with
    | .debouncing =>
      if p.gen = s.counter then
        { s with
          pending := s.pending.set i ⟨p.gen, p.username, .fetching⟩
          requests := s.requests ++ [reposUrl p.username] }
      else
        { s with pending := s.pending.eraseIdx i }
    | _ => s

/-- The fetch of run i settles.  On rejection the catch block dispatches
setFetchError(error.message) and returns — with no breakpoint check.  On
a response the bare breakpoint() call throws when the run was superseded
while fetching; otherwise the run suspends on response.json(). -/
def stepFetched (s : Sys) (i : Nat) (r : FetchResult) : Sys :=
  match s.pending[i]? with
  | none => s
  | some p =>
    match p.stage with
    | .fetching =>
      match r with
      | .transportError msg =>
        { s with
          store := reduce s.store (.setFetchError (some msg))
          pending := s.pending.eraseIdx i }
      | .response status body =>
        if p.gen = s.counter then
          { s with pending := s.pending.set i ⟨p.gen, p.username, .awaitingJson status body⟩ }
        else
          { s with pending := s.pending.eraseIdx i }
    | _ => s

/-- The response.json() promise of run i settles.  An invalid body makes
it reject: nothing catches that, so the exception leaves the listener.
A valid body is dispatched according to the status check, with no
further breakpoint. -/
def stepParsed (s : Sys) (i : Nat) : Sys :=
  match s.pending[i]? with
  | none => s
  | some p =>
    match p.stage with
    | .awaitingJson status body =>
      match body with
      | .invalid =>
        { s with pending := s.pending.eraseIdx i, uncaught := s.uncaught + 1 }
      | .valid v =>
        if status = 200 then
          { s with
            store := reduce s.store (.setRepositories (jsonRepos v))
            pending := s.pending.eraseIdx i }
        else
          { s with
            store := reduce s.store (.setFetchError (jsonMessage v))
            pending := s.pending.eraseIdx i }
    | _ => s

/-- One step of the widget semantics. -/
def step (s : Sys) : Event → Sys
  | .dispatch u => stepDispatch s u
  | .elapse i => stepElapse s i
  | .fetched i r => stepFetched s i r
  | .parsed i => stepParsed s i

/-- Running a sequence of events. -/
def run (s : Sys) (es : List Event) : Sys :=
  es.foldl step s

/-- The widget right after mount, before the afterMount dispatch. -/
def sys0 : Sys :=
  { store := initialState, counter := 0, pending := [], requests := [], uncaught := 0 }

/-- The listener runs suspended at the debounce breakpoint that a
sequence of consecutive dispatches creates, starting from generation
counter c. -/
def newPendings (c : Nat) : List String → List Pending
  | [] => []
  | u :: us => ⟨c + 1, u, .debouncing⟩ :: newPendings (c + 1) us

/-- ResultSet and ErrorMessage are mutually exclusive: at most one of
them is nonempty. -/
def Mutex (st : State) : Prop :=
  st.repositories = [] ∨ st.error = none

/-- The run at index i, when it exists, is the latest dispatch. -/
def genFresh (s : Sys) (i : Nat) : Prop :=
  match s.pending[i]? with
  | some p => p.gen = s.counter
  | none => True

/-- Events whose handling in the source checks a breakpoint before
mutating state, plus the completions of non-superseded runs: the two
unchecked completions — a transport failure of a superseded run and a
body-parse completion of a superseded run — are excluded. -/
def okEvent (s : Sys) : Event → Prop
  | .fetched i (.transportError _) => genFresh s i
  | .parsed i => genFresh s i
  | _ => True

/-- States reachable from the mounted widget by traces that avoid the
two unchecked stale completions. -/
inductive GoodReach : Sys → Prop
  | init : GoodReach sys0
  | next {s : Sys} {e : Event} : GoodReach s → okEvent s e → GoodReach (step s e)

/-- Inductive invariant for GoodReach: the store is mutually exclusive,
the store is fully cleared while the latest-generation run is still
suspended, generations are bounded by the counter, and generations are
strictly increasing along the pending list. -/
def Inv (s : Sys) : Prop :=
  Mutex s.store ∧
  (∀ p ∈ s.pending, p.gen = s.counter → s.store.repositories = [] ∧ s.store.error = none) ∧
  (∀ p ∈ s.pending, p.gen ≤ s.counter) ∧
  s.pending.Pairwise (fun p q => p.gen < q.gen)

/-- A heap of array values, modelling JavaScript array identity for the
selector: the store field repositories names one array in the heap. -/
structure ArrStore where
  arrs : List (List Repo)
deriving DecidableEq

/-- Reading the array named r. -/
def getArr (st : ArrStore) (r : Nat) : List Repo :=
  (st.arrs[r]?).getD []

/-- Allocating a fresh array holding value v; returns its name. -/
def allocArr (st : ArrStore) (v : List Repo) : ArrStore × Nat :=
  ({ arrs := st.arrs ++ [v] }, st.arrs.length)

/-- The spread [...repositories]: a fresh array with the same elements. -/
def spreadCopy (st : ArrStore) (r : Nat) : ArrStore × Nat :=
  allocArr st (getArr st r)

/-- Array.prototype.sort with the star comparator mutates its receiver
in place (stable comparator sort). -/
def sortInPlace (st : ArrStore) (r : Nat) : ArrStore :=
  { arrs := st.arrs.set r (List.mergeSort (getArr st r) repoLe) }

/-- The sortedRepositories selector at the heap level: spread the stored
array into a fresh copy, then sort the copy in place and return its
name. -/
def sortedRepositoriesSel (st : ArrStore) (r : Nat) : ArrStore × Nat :=
  let c := spreadCopy st r
  (sortInPlace c.1 c.2, c.2)

/-- C3: for every ResultSet, sortedRepositories is a permutation of it,
ordered by descending star count, and elements with equal star counts
retain their relative order (the star-k elements of the output are
exactly the star-k elements of the input, in the same order). -/
theorem sortedRepositories_spec (rs : List Repo) :
    List.Perm (sortedRepositories rs) rs ∧
    (sortedRepositories rs).Pairwise (fun a b => b.stargazers_count ≤ a.stargazers_count) ∧
    ∀ k : Nat,
      (sortedRepositories rs).filter (fun r => r.stargazers_count == k)
        = rs.filter (fun r => r.stargazers_count == k) := by
  have htrans : ∀ a b c : Repo, repoLe a b → repoLe b c → repoLe a c := by
    intro a b c hab hbc
    simp only [repoLe, decide_eq_true_eq] at *
    omega
  have htotal : ∀ a b : Repo, repoLe a b || repoLe b a := by
    intro a b
    simp only [repoLe, Bool.or_eq_true, decide_eq_true_eq]
    omega
  refine ⟨List.mergeSort_perm rs repoLe, ?_, ?_⟩
  · exact (List.sorted_mergeSort htrans htotal rs).imp (by
      intro a b h
      simpa [repoLe] using h)
  · intro k
    have hpw : (rs.filter (fun r => r.stargazers_count == k)).Pairwise
        (fun a b => repoLe a b = true) := by
      apply List.pairwise_of_forall_mem_list
      intro a ha b hb
      have ha2 := List.of_mem_filter ha
      have hb2 := List.of_mem_filter hb
      simp only [beq_iff_eq] at ha2 hb2
      simp [repoLe, ha2, hb2]
    have h2 : List.Sublist (rs.filter (fun r => r.stargazers_count == k))
        (List.mergeSort rs repoLe) :=
      List.sublist_mergeSort htrans htotal hpw (List.filter_sublist rs)
    have h5 : (rs.filter (fun r => r.stargazers_count == k)).filter
          (fun r => r.stargazers_count == k)
        = rs.filter (fun r => r.stargazers_count == k) := by
      apply List.filter_eq_self.mpr
      intro a ha
      exact (List.mem_filter.mp ha).2
    have h4 : List.Sublist (rs.filter (fun r => r.stargazers_count == k))
        ((List.mergeSort rs repoLe).filter (fun r => r.stargazers_count == k)) := by
      have h6 := h2.filter (fun r => r.stargazers_count == k)
      rwa [h5] at h6
    have h3 : ((List.mergeSort rs repoLe).filter (fun r => r.stargazers_count == k)).length
        = (rs.filter (fun r => r.stargazers_count == k)).length :=
      ((List.mergeSort_perm rs repoLe).filter (fun r => r.stargazers_count == k)).length_eq
    exact (h4.eq_of_length h3.symm).symm

theorem newPendings_append (c : Nat) (us vs : List String) :
    newPendings c (us ++ vs) = newPendings c us ++ newPendings (c + us.length) vs := by
  induction us generalizing c with
  | nil => simp [newPendings]
  | cons u us ih =>
    simp only [List.cons_append, newPendings, List.length_cons]
    rw [show us.append vs = us ++ vs from rfl, ih]
    have h : c + 1 + us.length = c + (us.length + 1) := by omega
    rw [h]

theorem newPendings_length (c : Nat) (us : List String) :
    (newPendings c us).length = us.length := by
  induction us generalizing c with
  | nil => simp [newPendings]
  | cons u us ih => simp [newPendings, ih]

theorem newPendings_mem (c : Nat) (us : List String) :
    ∀ q ∈ newPendings c us, (c < q.gen ∧ q.gen ≤ c + us.length) ∧ q.stage = .debouncing := by
  induction us generalizing c with
  | nil => simp [newPendings]
  | cons u us ih =>
    intro q hq
    simp only [newPendings, List.mem_cons] at hq
    rcases hq with hq | hq
    · subst hq
      exact ⟨⟨by show c < c + 1; omega, by show c + 1 ≤ c + (us.length + 1); omega⟩, rfl⟩
    · have h := (ih (c + 1) q hq).1
      exact ⟨⟨by omega, by show q.gen ≤ c + (us.length + 1); omega⟩, (ih (c + 1) q hq).2⟩

/-- Running consecutive setUsername dispatches: the store folds the
setUsername reducer, the counter advances once per dispatch, one
suspended run per dispatch is appended, and no request is issued. -/
theorem run_dispatches : ∀ (us : List String) (s : Sys),
    run s (us.map Event.dispatch) =
      { store := us.foldl (fun st u => reduce st (.setUsername u)) s.store
        counter := s.counter + us.length
        pending := s.pending ++ newPendings s.counter us
        requests := s.requests
        uncaught := s.uncaught }
  | [], s => by simp [run, newPendings]
  | u :: us, s => by
    have ih := run_dispatches us (step s (.dispatch u))
    simp only [run, List.map_cons, List.foldl_cons] at ih ⊢
    rw [ih]
    simp [step, stepDispatch, newPendings, List.append_assoc]
    omega

/-- Draining stale debounce timers: with a pending list consisting of
superseded debouncing runs followed by the latest debouncing run, firing
all the timers issues exactly the one request of the latest run. -/
theorem run_elapse_stale : ∀ (ps : List Pending) (s : Sys) (p : Pending),
    s.pending = ps ++ [p] →
    (∀ q ∈ ps, q.gen ≠ s.counter ∧ q.stage = .debouncing) →
    p.gen = s.counter → p.stage = .debouncing →
    run s (List.replicate (ps.length + 1) (.elapse 0)) =
      { s with
        pending := [⟨p.gen, p.username, .fetching⟩]
        requests := s.requests ++ [reposUrl p.username] }
  | [], s, p, hpend, _, hgen, hstage => by
    obtain ⟨g, un, st⟩ := p
    simp only at hgen hstage
    subst hstage
    simp only [List.nil_append] at hpend
    simp [run, step, stepElapse, hpend, hgen]
  | q :: ps, s, p, hpend, hstale, hgen, hstage => by
    have hq := hstale q (by simp)
    obtain ⟨g, un, st⟩ := q
    simp only at hq
    obtain ⟨hqgen, hqstage⟩ := hq
    subst hqstage
    have hstep : step s (.elapse 0) = { s with pending := ps ++ [p] } := by
      simp only [step, stepElapse, hpend]
      simp [hqgen, List.eraseIdx]
    have ih := run_elapse_stale ps { s with pending := ps ++ [p] } p rfl
      (fun r hr => hstale r (by simp [hr])) hgen hstage
    simp only [List.length_cons, List.replicate_succ, run, List.foldl_cons] at ih ⊢
    rw [hstep]
    exact ih

/-- C2: when each setUsername call in a nonempty sequence lands inside
the debounce window of the previous one (all dispatches precede every
debounce expiry), exactly one network request is issued, and it carries
the last value of the sequence. -/
theorem debounced_last_write_wins (s : Sys) (hpend : s.pending = [])
    (us : List String) (u : String) :
    (run s (((us ++ [u]).map Event.dispatch)
        ++ List.replicate (us.length + 1) (.elapse 0))).requests
      = s.requests ++ [reposUrl u] := by
  have hsplit : run s (((us ++ [u]).map Event.dispatch)
        ++ List.replicate (us.length + 1) (.elapse 0))
      = run (run s ((us ++ [u]).map Event.dispatch))
          (List.replicate (us.length + 1) (.elapse 0)) := by
    simp [run, List.foldl_append]
  rw [hsplit, run_dispatches (us ++ [u]) s]
  rw [newPendings_append s.counter us [u]]
  have hlast : newPendings (s.counter + us.length) [u]
      = [⟨s.counter + us.length + 1, u, .debouncing⟩] := by
    simp [newPendings]
  rw [hlast, hpend, List.nil_append]
  have hdrain := run_elapse_stale (newPendings s.counter us)
    { store := (us ++ [u]).foldl (fun st u => reduce st (.setUsername u)) s.store
      counter := s.counter + (us ++ [u]).length
      pending := newPendings s.counter us ++ [⟨s.counter + us.length + 1, u, .debouncing⟩]
      requests := s.requests
      uncaught := s.uncaught }
    ⟨s.counter + us.length + 1, u, .debouncing⟩ rfl
    (by
      intro q hq
      have h := (newPendings_mem s.counter us q hq).1
      refine ⟨?_, (newPendings_mem s.counter us q hq).2⟩
      show q.gen ≠ s.counter + (us ++ [u]).length
      simp only [List.length_append, List.length_cons, List.length_nil]
      omega)
    (by
      show s.counter + us.length + 1 = s.counter + (us ++ [u]).length
      simp only [List.length_append, List.length_cons, List.length_nil]
      omega) rfl
  rw [newPendings_length] at hdrain
  rw [hdrain]

/-- C2 check: two dispatches inside one debounce window issue exactly
one request, for the second value. -/
theorem debounced_last_write_wins_check :
    (run sys0 [.dispatch "a", .dispatch "b", .elapse 0, .elapse 0]).requests
      = sys0.requests ++ [reposUrl "b"] :=
  debounced_last_write_wins sys0 rfl ["a"] "b"

/-- C4: every setUsername dispatch synchronously sets the username to
the payload, clears ResultSet and ErrorMessage, sets isLoading, and
issues no network request and no exception at that moment. -/
theorem setUsername_immediate (s : Sys) (u : String) :
    (step s (.dispatch u)).store
      = { username := u, repositories := [], isLoading := true, error := none } ∧
    (step s (.dispatch u)).requests = s.requests ∧
    (step s (.dispatch u)).uncaught = s.uncaught := by
  exact ⟨rfl, rfl, rfl⟩

theorem mem_of_pending_getElem {l : List Pending} {i : Nat} {p : Pending}
    (h : l[i]? = some p) : p ∈ l := by
  rcases List.getElem?_eq_some_iff.mp h with ⟨hlt, he⟩
  exact he ▸ List.getElem_mem hlt

theorem pairwise_set_same_gen {l : List Pending} {i : Nat} {p q : Pending}
    (hp : l[i]? = some p) (hq : q.gen = p.gen)
    (hpw : l.Pairwise (fun a b => a.gen < b.gen)) :
    (l.set i q).Pairwise (fun a b => a.gen < b.gen) := by
  induction l generalizing i with
  | nil => simp at hp
  | cons a t ih =>
    cases i with
    | zero =>
      rw [List.getElem?_cons_zero, Option.some.injEq] at hp
      subst hp
      rw [List.set_cons_zero]
      rw [List.pairwise_cons] at hpw ⊢
      exact ⟨fun b hb => hq ▸ hpw.1 b hb, hpw.2⟩
    | succ i =>
      rw [List.getElem?_cons_succ] at hp
      rw [List.set_cons_succ]
      rw [List.pairwise_cons] at hpw ⊢
      refine ⟨?_, ih hp hpw.2⟩
      intro b hb
      rcases List.mem_or_eq_of_mem_set hb with h | h
      · exact hpw.1 b h
      · subst h
        exact hq ▸ hpw.1 p (mem_of_pending_getElem hp)

theorem eraseIdx_gen_ne {l : List Pending} {i : Nat} {p : Pending}
    (hp : l[i]? = some p)
    (hpw : l.Pairwise (fun a b => a.gen < b.gen)) :
    ∀ q ∈ l.eraseIdx i, q.gen ≠ p.gen := by
  induction l generalizing i with
  | nil => simp at hp
  | cons a t ih =>
    cases i with
    | zero =>
      rw [List.getElem?_cons_zero, Option.some.injEq] at hp
      subst hp
      intro q hq
      rw [List.eraseIdx_cons_zero] at hq
      have h := (List.pairwise_cons.mp hpw).1 q hq
      omega
    | succ i =>
      rw [List.getElem?_cons_succ] at hp
      intro q hq
      rw [List.eraseIdx_cons_succ] at hq
      rcases List.mem_cons.mp hq with h | h
      · subst h
        have h2 := (List.pairwise_cons.mp hpw).1 p (mem_of_pending_getElem hp)
        omega
      · exact ih hp (List.pairwise_cons.mp hpw).2 q h

/-- C1 (amended): a superseded completion that goes through a
breakpoint check mutates nothing — the end of the debounce wait and the
arrival of a response both leave the store unchanged when the run is no
longer the latest.  (The two completions without a check are excluded:
a transport failure dispatches setFetchError before any check, and the
settling of response.json() dispatches without a further check.) -/
theorem superseded_checked_completion_no_mutation (s : Sys) (i : Nat) (p : Pending)
    (hp : s.pending[i]? = some p) (hgen : p.gen ≠ s.counter) :
    (step s (.elapse i)).store = s.store ∧
    ∀ (status : Nat) (body : Body),
      (step s (.fetched i (.response status body))).store = s.store := by
  obtain ⟨g, un, st⟩ := p
  simp only at hgen
  constructor
  · show (stepElapse s i).store = s.store
    unfold stepElapse
    rw [hp]
    cases st
    · simp [hgen]
    · rfl
    · rfl
  · intro status body
    show (stepFetched s i (.response status body)).store = s.store
    unfold stepFetched
    rw [hp]
    cases st
    · rfl
    · simp [hgen]
    · rfl

/-- C1 check: the no-mutation theorem applied to a run superseded while
still debouncing and to one superseded while fetching. -/
theorem superseded_checked_completion_no_mutation_check :
    (step (run sys0 [.dispatch "a", .dispatch "b"]) (.elapse 0)).store
      = (run sys0 [.dispatch "a", .dispatch "b"]).store ∧
    (step (run sys0 [.dispatch "a", .dispatch "b"])
        (.fetched 0 (.response 200 (.valid (.arr []))))).store
      = (run sys0 [.dispatch "a", .dispatch "b"]).store := by
  have h := superseded_checked_completion_no_mutation
    (run sys0 [.dispatch "a", .dispatch "b"]) 0 ⟨1, "a", .debouncing⟩
    (by decide) (by decide)
  exact ⟨h.1, h.2 200 (.valid (.arr []))⟩

/-- C1 is false as stated: a run superseded while its fetch is in
flight still mutates the store when the fetch fails at transport level —
the catch block dispatches setFetchError before any breakpoint check.
Below, run 1 (username a, generation 1) is superseded by generation 2,
yet its transport failure flips error from none to some and isLoading
from true to false. -/
theorem superseded_transport_failure_mutates :
    (run sys0 [.dispatch "a", .elapse 0, .dispatch "b"]).pending
      = [⟨1, "a", .fetching⟩, ⟨2, "b", .debouncing⟩] ∧
    (run sys0 [.dispatch "a", .elapse 0, .dispatch "b"]).counter = 2 ∧
    (run sys0 [.dispatch "a", .elapse 0, .dispatch "b"]).store.error = none ∧
    (run sys0 [.dispatch "a", .elapse 0, .dispatch "b"]).store.isLoading = true ∧
    (step (run sys0 [.dispatch "a", .elapse 0, .dispatch "b"])
        (.fetched 0 (.transportError "boom"))).store.error = some "boom" ∧
    (step (run sys0 [.dispatch "a", .elapse 0, .dispatch "b"])
        (.fetched 0 (.transportError "boom"))).store.isLoading = false := by
  decide

theorem stepParsed_valid_body (s : Sys) (i : Nat) (p : Pending) (status : Nat) (v : JsonValue)
    (hp : s.pending[i]? = some p) (hstage : p.stage = .awaitingJson status (.valid v)) :
    stepParsed s i =
      if status = 200 then
        { s with
          store := reduce s.store (.setRepositories (jsonRepos v))
          pending := s.pending.eraseIdx i }
      else
        { s with
          store := reduce s.store (.setFetchError (jsonMessage v))
          pending := s.pending.eraseIdx i } := by
  obtain ⟨g, un, st⟩ := p
  simp only at hstage
  subst hstage
  unfold stepParsed
  rw [hp]

theorem stepFetched_response_fresh (s : Sys) (i : Nat) (p : Pending)
    (hp : s.pending[i]? = some p) (hstage : p.stage = .fetching)
    (hgen : p.gen = s.counter) (status : Nat) (body : Body) :
    step s (.fetched i (.response status body))
      = { s with pending := s.pending.set i ⟨p.gen, p.username, .awaitingJson status body⟩ } := by
  obtain ⟨g, un, st⟩ := p
  simp only at hstage hgen
  subst hstage
  show stepFetched s i (.response status body) = _
  unfold stepFetched
  rw [hp]
  simp [hgen]

/-- C6: when a non-superseded run receives its response, a 200 status
with an array body stores the parsed list and ends loading, and a
non-200 status with a message object stores the server message and ends
loading. -/
theorem response_success_or_app_error (s : Sys) (i : Nat) (p : Pending)
    (hp : s.pending[i]? = some p) (hstage : p.stage = .fetching)
    (hgen : p.gen = s.counter) :
    (∀ rs : List Repo,
      (step (step s (.fetched i (.response 200 (.valid (.arr rs))))) (.parsed i)).store.repositories = rs ∧
      (step (step s (.fetched i (.response 200 (.valid (.arr rs))))) (.parsed i)).store.isLoading = false ∧
      (step (step s (.fetched i (.response 200 (.valid (.arr rs))))) (.parsed i)).store.username
        = s.store.username) ∧
    (∀ (status : Nat) (m : String), status ≠ 200 →
      (step (step s (.fetched i (.response status (.valid (.obj m))))) (.parsed i)).store.error = some m ∧
      (step (step s (.fetched i (.response status (.valid (.obj m))))) (.parsed i)).store.isLoading = false ∧
      (step (step s (.fetched i (.response status (.valid (.obj m))))) (.parsed i)).store.repositories
        = s.store.repositories ∧
      (step (step s (.fetched i (.response status (.valid (.obj m))))) (.parsed i)).store.username
        = s.store.username) := by
  have hlen : i < s.pending.length := by
    rcases List.getElem?_eq_some_iff.mp hp with ⟨h, _⟩
    exact h
  constructor
  · intro rs
    rw [stepFetched_response_fresh s i p hp hstage hgen 200 (.valid (.arr rs))]
    have hidx : (s.pending.set i ⟨p.gen, p.username, .awaitingJson 200 (.valid (.arr rs))⟩)[i]?
        = some ⟨p.gen, p.username, .awaitingJson 200 (.valid (.arr rs))⟩ := by
      exact List.getElem?_set_self hlen
    have hstep : step { s with
          pending := s.pending.set i ⟨p.gen, p.username, .awaitingJson 200 (.valid (.arr rs))⟩ }
        (.parsed i)
        = { s with
            store := reduce s.store (.setRepositories (jsonRepos (.arr rs)))
            pending := (s.pending.set i
              ⟨p.gen, p.username, .awaitingJson 200 (.valid (.arr rs))⟩).eraseIdx i } := by
      rw [show step { s with
          pending := s.pending.set i ⟨p.gen, p.username, .awaitingJson 200 (.valid (.arr rs))⟩ }
          (.parsed i) = stepParsed { s with
          pending := s.pending.set i ⟨p.gen, p.username, .awaitingJson 200 (.valid (.arr rs))⟩ } i
        from rfl]
      rw [stepParsed_valid_body _ i ⟨p.gen, p.username, .awaitingJson 200 (.valid (.arr rs))⟩
        200 (.arr rs) hidx rfl]
      rw [if_pos rfl]
    rw [hstep]
    exact ⟨rfl, rfl, rfl⟩
  · intro status m hstatus
    rw [stepFetched_response_fresh s i p hp hstage hgen status (.valid (.obj m))]
    have hidx : (s.pending.set i ⟨p.gen, p.username, .awaitingJson status (.valid (.obj m))⟩)[i]?
        = some ⟨p.gen, p.username, .awaitingJson status (.valid (.obj m))⟩ := by
      exact List.getElem?_set_self hlen
    have hstep : step { s with
          pending := s.pending.set i ⟨p.gen, p.username, .awaitingJson status (.valid (.obj m))⟩ }
        (.parsed i)
        = { s with
            store := reduce s.store (.setFetchError (jsonMessage (.obj m)))
            pending := (s.pending.set i
              ⟨p.gen, p.username, .awaitingJson status (.valid (.obj m))⟩).eraseIdx i } := by
      rw [show step { s with
          pending := s.pending.set i ⟨p.gen, p.username, .awaitingJson status (.valid (.obj m))⟩ }
          (.parsed i) = stepParsed { s with
          pending := s.pending.set i ⟨p.gen, p.username, .awaitingJson status (.valid (.obj m))⟩ } i
        from rfl]
      rw [stepParsed_valid_body _ i ⟨p.gen, p.username, .awaitingJson status (.valid (.obj m))⟩
        status (.obj m) hidx rfl]
      rw [if_neg hstatus]
    rw [hstep]
    exact ⟨rfl, rfl, rfl, rfl⟩

/-- C6 check: a 200 response with one repository stores it; a 404
response with message Not Found stores the message. -/
theorem response_success_or_app_error_check :
    (step (step (run sys0 [.dispatch "octocat", .elapse 0])
        (.fetched 0 (.response 200 (.valid (.arr [⟨1, "octocat/hello", "h", 10, 2⟩])))))
      (.parsed 0)).store.repositories = [⟨1, "octocat/hello", "h", 10, 2⟩] ∧
    (step (step (run sys0 [.dispatch "nouser", .elapse 0])
        (.fetched 0 (.response 404 (.valid (.obj "Not Found")))))
      (.parsed 0)).store.error = some "Not Found" := by
  constructor
  · exact ((response_success_or_app_error (run sys0 [.dispatch "octocat", .elapse 0]) 0
      ⟨1, "octocat", .fetching⟩ (by decide) rfl (by decide)).1
        [⟨1, "octocat/hello", "h", 10, 2⟩]).1
  · exact ((response_success_or_app_error (run sys0 [.dispatch "nouser", .elapse 0]) 0
      ⟨1, "nouser", .fetching⟩ (by decide) rfl (by decide)).2 404 "Not Found" (by decide)).1

/-- C7: a transport failure of an awaited fetch stores the failure
message as ErrorMessage, ends loading, changes no other store field,
issues no further request, raises nothing, and ends the listener run
(its pending entry is removed, so nothing further happens for it). -/
theorem transport_failure_terminal (s : Sys) (i : Nat) (p : Pending)
    (hp : s.pending[i]? = some p) (hstage : p.stage = .fetching) (msg : String) :
    (step s (.fetched i (.transportError msg))).store.error = some msg ∧
    (step s (.fetched i (.transportError msg))).store.isLoading = false ∧
    (step s (.fetched i (.transportError msg))).store.username = s.store.username ∧
    (step s (.fetched i (.transportError msg))).store.repositories = s.store.repositories ∧
    (step s (.fetched i (.transportError msg))).requests = s.requests ∧
    (step s (.fetched i (.transportError msg))).uncaught = s.uncaught ∧
    (step s (.fetched i (.transportError msg))).pending = s.pending.eraseIdx i := by
  obtain ⟨g, un, st⟩ := p
  simp only at hstage
  subst hstage
  have hstep : step s (.fetched i (.transportError msg))
      = { s with
          store := reduce s.store (.setFetchError (some msg))
          pending := s.pending.eraseIdx i } := by
    show stepFetched s i (.transportError msg) = _
    unfold stepFetched
    rw [hp]
  rw [hstep]
  exact ⟨rfl, rfl, rfl, rfl, rfl, rfl, rfl⟩

/-- C7 check: the transport-failure theorem applied after one dispatch
and its debounce expiry. -/
theorem transport_failure_terminal_check :
    (step (run sys0 [.dispatch "a", .elapse 0])
        (.fetched 0 (.transportError "Failed to fetch"))).store.error
      = some "Failed to fetch" ∧
    (step (run sys0 [.dispatch "a", .elapse 0])
        (.fetched 0 (.transportError "Failed to fetch"))).requests
      = (run sys0 [.dispatch "a", .elapse 0]).requests := by
  have h := transport_failure_terminal (run sys0 [.dispatch "a", .elapse 0]) 0
    ⟨1, "a", .fetching⟩ (by decide) rfl "Failed to fetch"
  exact ⟨h.1, h.2.2.2.2.1⟩

/-- C8 (amended): no event raises an exception past the listener except
the settling of response.json() on a body that is not valid JSON; in
particular every dispatch, every debounce expiry, every fetch outcome,
and every valid-JSON parse completes without an uncaught exception. -/
theorem no_uncaught_without_invalid_body (s : Sys) (e : Event)
    (h : ∀ i, e = .parsed i → ∀ p, s.pending[i]? = some p →
      ∀ status, p.stage ≠ .awaitingJson status .invalid) :
    (step s e).uncaught = s.uncaught := by
  cases e with
  | dispatch u => rfl
  | elapse i =>
    show (stepElapse s i).uncaught = s.uncaught
    unfold stepElapse
    cases hp : s.pending[i]? with
    | none => rfl
    | some p =>
      obtain ⟨g, un, st⟩ := p
      cases st
      · dsimp only
        split <;> rfl
      · rfl
      · rfl
  | fetched i r =>
    show (stepFetched s i r).uncaught = s.uncaught
    unfold stepFetched
    cases hp : s.pending[i]? with
    | none => rfl
    | some p =>
      obtain ⟨g, un, st⟩ := p
      cases st
      · rfl
      · cases r with
        | transportError msg => rfl
        | response status body =>
          dsimp only
          split <;> rfl
      · rfl
  | parsed i =>
    show (stepParsed s i).uncaught = s.uncaught
    unfold stepParsed
    cases hp : s.pending[i]? with
    | none => rfl
    | some p =>
      obtain ⟨g, un, st⟩ := p
      cases st with
      | debouncing => rfl
      | fetching => rfl
      | awaitingJson status body =>
        cases body with
        | invalid =>
          exact absurd rfl (h i rfl ⟨g, un, .awaitingJson status .invalid⟩ hp status)
        | valid v =>
          dsimp only
          split <;> rfl

/-- C8 check: the no-exception theorem applied to a server-error
response with a valid JSON body. -/
theorem no_uncaught_without_invalid_body_check :
    (step (run sys0 [.dispatch "a", .elapse 0])
        (.fetched 0 (.response 500 (.valid (.obj "oops"))))).uncaught
      = (run sys0 [.dispatch "a", .elapse 0]).uncaught :=
  no_uncaught_without_invalid_body (run sys0 [.dispatch "a", .elapse 0])
    (.fetched 0 (.response 500 (.valid (.obj "oops"))))
    (fun _ hi => nomatch hi)

/-- C8 is false as stated: a received response whose body is not valid
JSON makes response.json() reject outside any try/catch, so the
exception leaves the listener instead of being surfaced as
ErrorMessage. -/
theorem invalid_body_uncaught :
    (run sys0 [.dispatch "a", .elapse 0, .fetched 0 (.response 200 .invalid),
      .parsed 0]).uncaught = 1 ∧
    sys0.uncaught = 0 ∧
    (run sys0 [.dispatch "a", .elapse 0, .fetched 0 (.response 200 .invalid),
      .parsed 0]).store.error = none := by
  decide

theorem inv_init : Inv sys0 := by
  refine ⟨Or.inl rfl, ?_, ?_, ?_⟩
  · intro p hp
    simp [sys0] at hp
  · intro p hp
    simp [sys0] at hp
  · exact List.Pairwise.nil

theorem inv_step {s : Sys} {e : Event} (hInv : Inv s) (hok : okEvent s e) :
    Inv (step s e) := by
  obtain ⟨hMutex, hClear, hBound, hPW⟩ := hInv
  cases e with
  | dispatch u =>
    refine ⟨Or.inl rfl, fun p hp hgen => ⟨rfl, rfl⟩, ?_, ?_⟩
    · intro p hp
      rcases List.mem_append.mp hp with h | h
      · exact Nat.le_succ_of_le (hBound p h)
      · rw [List.mem_singleton] at h
        subst h
        exact Nat.le_refl _
    · show List.Pairwise _ (s.pending ++ [⟨s.counter + 1, u, .debouncing⟩])
      rw [List.pairwise_append]
      refine ⟨hPW, List.pairwise_singleton _ _, ?_⟩
      intro a ha b hb
      rw [List.mem_singleton] at hb
      subst hb
      exact Nat.lt_succ_of_le (hBound a ha)
  | elapse i =>
    show Inv (stepElapse s i)
    unfold stepElapse
    cases hp : s.pending[i]? with
    | none => exact ⟨hMutex, hClear, hBound, hPW⟩
    | some p =>
      obtain ⟨g, un, st⟩ := p
      cases st with
      | debouncing =>
        dsimp only
        by_cases hgen : g = s.counter
        · rw [if_pos hgen]
          refine ⟨hMutex, ?_, ?_, ?_⟩
          · intro q hq hqgen
            rcases List.mem_or_eq_of_mem_set hq with h | h
            · exact hClear q h hqgen
            · subst h
              exact hClear ⟨g, un, .debouncing⟩ (mem_of_pending_getElem hp) hqgen
          · intro q hq
            rcases List.mem_or_eq_of_mem_set hq with h | h
            · exact hBound q h
            · subst h
              exact hBound ⟨g, un, .debouncing⟩ (mem_of_pending_getElem hp)
          · exact pairwise_set_same_gen hp rfl hPW
        · rw [if_neg hgen]
          exact ⟨hMutex,
            fun q hq hqgen => hClear q ((List.eraseIdx_sublist _ i).subset hq) hqgen,
            fun q hq => hBound q ((List.eraseIdx_sublist _ i).subset hq),
            List.Pairwise.sublist (List.eraseIdx_sublist _ i) hPW⟩
      | fetching => exact ⟨hMutex, hClear, hBound, hPW⟩
      | awaitingJson status body => exact ⟨hMutex, hClear, hBound, hPW⟩
  | fetched i r =>
    show Inv (stepFetched s i r)
    unfold stepFetched
    cases hp : s.pending[i]? with
    | none => exact ⟨hMutex, hClear, hBound, hPW⟩
    | some p =>
      obtain ⟨g, un, st⟩ := p
      cases st with
      | debouncing => exact ⟨hMutex, hClear, hBound, hPW⟩
      | fetching =>
        cases r with
        | transportError msg =>
          have hgen : g = s.counter := by
            have h2 := hok
            unfold okEvent genFresh at h2
            dsimp only at h2
            rw [hp] at h2
            exact h2
          have hcleared := hClear ⟨g, un, .fetching⟩ (mem_of_pending_getElem hp) hgen
          dsimp only
          refine ⟨Or.inl ?_, ?_, ?_, ?_⟩
          · show s.store.repositories = []
            exact hcleared.1
          · intro q hq hqgen
            have hne := eraseIdx_gen_ne hp hPW q hq
            refine absurd ?_ hne
            show q.gen = g
            rw [hqgen, hgen]
          · intro q hq
            exact hBound q ((List.eraseIdx_sublist _ i).subset hq)
          · exact List.Pairwise.sublist (List.eraseIdx_sublist _ i) hPW
        | response status body =>
          dsimp only
          by_cases hgen : g = s.counter
          · rw [if_pos hgen]
            refine ⟨hMutex, ?_, ?_, ?_⟩
            · intro q hq hqgen
              rcases List.mem_or_eq_of_mem_set hq with h | h
              · exact hClear q h hqgen
              · subst h
                exact hClear ⟨g, un, .fetching⟩ (mem_of_pending_getElem hp) hqgen
            · intro q hq
              rcases List.mem_or_eq_of_mem_set hq with h | h
              · exact hBound q h
              · subst h
                exact hBound ⟨g, un, .fetching⟩ (mem_of_pending_getElem hp)
            · exact pairwise_set_same_gen hp rfl hPW
          · rw [if_neg hgen]
            exact ⟨hMutex,
              fun q hq hqgen => hClear q ((List.eraseIdx_sublist _ i).subset hq) hqgen,
              fun q hq => hBound q ((List.eraseIdx_sublist _ i).subset hq),
              List.Pairwise.sublist (List.eraseIdx_sublist _ i) hPW⟩
      | awaitingJson status body => exact ⟨hMutex, hClear, hBound, hPW⟩
  | parsed i =>
    show Inv (stepParsed s i)
    unfold stepParsed
    cases hp : s.pending[i]? with
    | none => exact ⟨hMutex, hClear, hBound, hPW⟩
    | some p =>
      obtain ⟨g, un, st⟩ := p
      cases st with
      | debouncing => exact ⟨hMutex, hClear, hBound, hPW⟩
      | fetching => exact ⟨hMutex, hClear, hBound, hPW⟩
      | awaitingJson status body =>
        have hgen : g = s.counter := by
          have h2 := hok
          unfold okEvent genFresh at h2
          dsimp only at h2
          rw [hp] at h2
          exact h2
        have hcleared := hClear ⟨g, un, .awaitingJson status body⟩
          (mem_of_pending_getElem hp) hgen
        cases body with
        | invalid =>
          dsimp only
          exact ⟨hMutex,
            fun q hq hqgen => hClear q ((List.eraseIdx_sublist _ i).subset hq) hqgen,
            fun q hq => hBound q ((List.eraseIdx_sublist _ i).subset hq),
            List.Pairwise.sublist (List.eraseIdx_sublist _ i) hPW⟩
        | valid v =>
          dsimp only
          by_cases hstatus : status = 200
          · rw [if_pos hstatus]
            refine ⟨Or.inr ?_, ?_, ?_, ?_⟩
            · show s.store.error = none
              exact hcleared.2
            · intro q hq hqgen
              have hne := eraseIdx_gen_ne hp hPW q hq
              refine absurd ?_ hne
              show q.gen = g
              rw [hqgen, hgen]
            · intro q hq
              exact hBound q ((List.eraseIdx_sublist _ i).subset hq)
            · exact List.Pairwise.sublist (List.eraseIdx_sublist _ i) hPW
          · rw [if_neg hstatus]
            refine ⟨Or.inl ?_, ?_, ?_, ?_⟩
            · show s.store.repositories = []
              exact hcleared.1
            · intro q hq hqgen
              have hne := eraseIdx_gen_ne hp hPW q hq
              refine absurd ?_ hne
              show q.gen = g
              rw [hqgen, hgen]
            · intro q hq
              exact hBound q ((List.eraseIdx_sublist _ i).subset hq)
            · exact List.Pairwise.sublist (List.eraseIdx_sublist _ i) hPW

/-- C5 (amended): ResultSet and ErrorMessage are mutually exclusive in
every state reachable by traces in which superseded runs never complete
through the two unchecked paths (a stale transport failure, or a stale
response.json() settling); an interleaving using such a completion can
leave both populated. -/
theorem mutual_exclusion_of_reachable (s : Sys) (h : GoodReach s) : Mutex s.store := by
  have hInv : Inv s := by
    induction h with
    | init => exact inv_init
    | next hg hok ih => exact inv_step ih hok
  exact hInv.1

/-- C5 (amended) check: mutual exclusion after a full successful cycle
of the latest run. -/
theorem mutual_exclusion_of_reachable_check :
    Mutex (run sys0 [.dispatch "a", .elapse 0,
      .fetched 0 (.response 200 (.valid (.arr [⟨1, "a/r", "h", 3, 0⟩]))), .parsed 0]).store := by
  have h1 : GoodReach (step sys0 (.dispatch "a")) := .next .init trivial
  have h2 : GoodReach (step (step sys0 (.dispatch "a")) (.elapse 0)) := .next h1 trivial
  have h3 : GoodReach (step (step (step sys0 (.dispatch "a")) (.elapse 0))
      (.fetched 0 (.response 200 (.valid (.arr [⟨1, "a/r", "h", 3, 0⟩]))))) :=
    .next h2 trivial
  have h4 : GoodReach (step (step (step (step sys0 (.dispatch "a")) (.elapse 0))
      (.fetched 0 (.response 200 (.valid (.arr [⟨1, "a/r", "h", 3, 0⟩]))))) (.parsed 0)) :=
    .next h3 rfl
  exact mutual_exclusion_of_reachable _ h4

/-- C5 is false as stated: with two overlapping requests, the stale
transport failure of the superseded run lands after the latest run has
stored its results, leaving ResultSet and ErrorMessage both populated
at once. -/
theorem mutual_exclusion_violated :
    ¬ Mutex (run sys0 [.dispatch "a", .elapse 0, .dispatch "b", .elapse 1,
        .fetched 1 (.response 200 (.valid (.arr [⟨1, "b/r", "h", 5, 0⟩]))), .parsed 1,
        .fetched 0 (.transportError "x")]).store ∧
    (run sys0 [.dispatch "a", .elapse 0, .dispatch "b", .elapse 1,
        .fetched 1 (.response 200 (.valid (.arr [⟨1, "b/r", "h", 5, 0⟩]))), .parsed 1,
        .fetched 0 (.transportError "x")]).store.repositories = [⟨1, "b/r", "h", 5, 0⟩] ∧
    (run sys0 [.dispatch "a", .elapse 0, .dispatch "b", .elapse 1,
        .fetched 1 (.response 200 (.valid (.arr [⟨1, "b/r", "h", 5, 0⟩]))), .parsed 1,
        .fetched 0 (.transportError "x")]).store.error = some "x" := by
  refine ⟨?_, ?_, ?_⟩
  · unfold Mutex
    decide
  · decide
  · decide

/-- C10: setRepositories changes only the repositories and isLoading
fields; setFetchError changes only the error and isLoading fields;
setUsername clears both repositories and error, and no other action can
clear both from a state where both are populated. -/
theorem reducer_frames :
    (∀ (st : State) (rs : List Repo),
      (reduce st (.setRepositories rs)).username = st.username ∧
      (reduce st (.setRepositories rs)).error = st.error ∧
      (reduce st (.setRepositories rs)).repositories = rs ∧
      (reduce st (.setRepositories rs)).isLoading = false) ∧
    (∀ (st : State) (e : Option String),
      (reduce st (.setFetchError e)).username = st.username ∧
      (reduce st (.setFetchError e)).repositories = st.repositories ∧
      (reduce st (.setFetchError e)).error = e ∧
      (reduce st (.setFetchError e)).isLoading = false) ∧
    (∀ (st : State) (u : String),
      (reduce st (.setUsername u)).repositories = [] ∧
      (reduce st (.setUsername u)).error = none) ∧
    (∀ (st : State) (a : Action), st.repositories ≠ [] → st.error ≠ none →
      (reduce st a).repositories = [] → (reduce st a).error = none →
      ∃ u, a = .setUsername u) := by
  refine ⟨fun st rs => ⟨rfl, rfl, rfl, rfl⟩, fun st e => ⟨rfl, rfl, rfl, rfl⟩,
    fun st u => ⟨rfl, rfl⟩, ?_⟩
  intro st a h1 h2 h3 h4
  cases a with
  | setUsername u => exact ⟨u, rfl⟩
  | setRepositories rs => exact absurd h4 h2
  | setFetchError e => exact absurd h3 h1

/-- C10 check: the frame theorem applied at a concrete state where both
ResultSet and ErrorMessage are populated. -/
theorem reducer_frames_check :
    ∃ u, Action.setUsername "octocat" = Action.setUsername u :=
  reducer_frames.2.2.2 ⟨"x", [⟨1, "n", "h", 3, 0⟩], false, some "m"⟩
    (.setUsername "octocat") (by decide) (by decide) (by decide) (by decide)

/-- C9: evaluating the sortedRepositories selector never modifies the
stored array — the sort mutates only the fresh spread copy, so the
array named by the store keeps its elements and their order, while the
returned array holds the sorted value. -/
theorem selector_does_not_mutate_store (st : ArrStore) (r : Nat)
    (h : r < st.arrs.length) :
    getArr (sortedRepositoriesSel st r).1 r = getArr st r ∧
    getArr (sortedRepositoriesSel st r).1 (sortedRepositoriesSel st r).2
      = sortedRepositories (getArr st r) := by
  have hne : st.arrs.length ≠ r := Nat.ne_of_gt h
  have hv : (st.arrs ++ [st.arrs[r]?.getD []])[st.arrs.length]?.getD []
      = st.arrs[r]?.getD [] := by
    rw [List.getElem?_append_right (Nat.le_refl _), Nat.sub_self]
    rfl
  constructor
  · show getArr (sortInPlace { arrs := st.arrs ++ [getArr st r] } st.arrs.length) r
      = getArr st r
    unfold sortInPlace getArr
    dsimp only
    rw [List.getElem?_set_ne hne, List.getElem?_append_left h]
  · show getArr (sortInPlace { arrs := st.arrs ++ [getArr st r] } st.arrs.length)
        st.arrs.length
      = sortedRepositories (getArr st r)
    unfold sortInPlace getArr
    dsimp only
    rw [List.getElem?_set_self (by simp)]
    rw [hv]
    rfl

/-- C9 check: the no-mutation theorem applied to a store holding one
two-element, unsorted array. -/
theorem selector_does_not_mutate_store_check :
    getArr (sortedRepositoriesSel
        { arrs := [[⟨2, "b", "h", 7, 0⟩, ⟨1, "a", "h", 1, 0⟩]] } 0).1 0
      = [⟨2, "b", "h", 7, 0⟩, ⟨1, "a", "h", 1, 0⟩] ∧
    getArr (sortedRepositoriesSel
        { arrs := [[⟨2, "b", "h", 7, 0⟩, ⟨1, "a", "h", 1, 0⟩]] } 0).1
      (sortedRepositoriesSel
        { arrs := [[⟨2, "b", "h", 7, 0⟩, ⟨1, "a", "h", 1, 0⟩]] } 0).2
      = [⟨2, "b", "h", 7, 0⟩, ⟨1, "a", "h", 1, 0⟩] := by
  have h := selector_does_not_mutate_store
    { arrs := [[⟨2, "b", "h", 7, 0⟩, ⟨1, "a", "h", 1, 0⟩]] } 0 (by decide)
  have hpw : List.Pairwise (fun a b => repoLe a b = true)
      [(⟨2, "b", "h", 7, 0⟩ : Repo), ⟨1, "a", "h", 1, 0⟩] := by
    refine List.Pairwise.cons ?_ (List.pairwise_singleton _ _)
    intro b hb
    rw [List.mem_singleton] at hb
    subst hb
    rfl
  constructor
  · rw [h.1]
    decide
  · rw [h.2]
    exact List.mergeSort_of_sorted hpw

end GithubWidget
